import Mathlib

/-!
Shallow embedding of the anchor/dependent change-propagation core of the
`rmf_site` editor: the measurement visual systems and layer constants of
`src/rmf_site_editor/src/site/measurement.rs`, the drawing layering systems of
`src/rmf_site_editor/src/site/drawing.rs`, the sandbox measurement spawner of
`src/rmf_sandbox/src/measurement.rs`, and the workcell serialization format of
`src/rmf_site_format/src/workcell.rs`.

Entity ids are embedded as `Nat`; `f32`/`f64` values are embedded as real
numbers with exact decimal constants (the layer constants, which only ever
meet each other in equalities and orderings, are kept in `ℚ` so that they
evaluate); ECS queries are embedded as the explicit lists/maps the systems
read, and a Rust panic (`unwrap`, out-of-bounds indexing) is embedded as
`none`.
-/

namespace RmfSite

/-- Embeds `bevy`'s `Vec3` (three `f32` components). -/
structure Vec3 where
  x : ℝ
  y : ℝ
  z : ℝ

/-- Embeds `bevy`'s `Transform`: a translation, a rotation about the z axis
(the code only ever builds rotations with `Quat::from_rotation_z(yaw)`, so the
rotation is embedded as the yaw angle itself), and a scale. -/
structure Transform where
  translation : Vec3
  yaw : ℝ
  scale : Vec3

/-- Two-argument arctangent, embedding Rust's `f32::atan2`/`f64::atan2`
(`y.atan2(x)` is the angle of the vector `(x, y)`), with `atan2 0 0 = 0` as in
IEEE-754. -/
noncomputable def atan2 (y x : ℝ) : ℝ :=
  if 0 < x then Real.arctan (y / x)
  else if x < 0 then
    (if 0 ≤ y then Real.arctan (y / x) + Real.pi else Real.arctan (y / x) - Real.pi)
  else (if 0 < y then Real.pi / 2 else if y < 0 then -(Real.pi / 2) else 0)

/-- `DRAWING_LAYER_START` of `src/rmf_site_editor/src/site/drawing.rs`. -/
def DRAWING_LAYER_START : ℚ := 0

/-- Modelled from the spec: `FLOOR_LAYER_START` lives in the floor module,
which is not among the supplied sources. §4.4 makes floors the category whose
band bounds the drawings' band from above; the one inter-band step visible in
the sources is `+ 0.001` (`MEASUREMENT_LAYER_START`), so the floors' band is
modelled as starting `0.001` above the drawings'. -/
def FLOOR_LAYER_START : ℚ := DRAWING_LAYER_START + 1/1000

/-- `MEASUREMENT_LAYER_START = DRAWING_LAYER_START + 0.001` of
`src/rmf_site_editor/src/site/measurement.rs`. -/
def MEASUREMENT_LAYER_START : ℚ := DRAWING_LAYER_START + 1/1000

/-- Modelled from the spec: `LANE_WIDTH` lives in the lane module, which is not
among the supplied sources; its concrete value only passes through to the
stroke's y scale and decides nothing below. -/
noncomputable def LANE_WIDTH : ℝ := 1/2

/-- Modelled from the spec: `rmf_site_format::Edge<Entity>`, the reference
descriptor of §3 — "an ordered pair (start, end)" of anchor references, with
accessors `start()`, `end()` and `array() = [start, end]`. (`end` is a Lean
keyword, so the second field is named `stop`.) -/
structure Edge where
  start : Nat
  stop : Nat
  deriving DecidableEq

/-- `Edge::array()`: the two anchors of the edge, start first. -/
def Edge.array (e : Edge) : List Nat := [e.start, e.stop]

/-- Modelled from the spec: `line_stroke_transform` lives in the lane module,
which is not among the supplied sources. Per §4.3 it computes the derived
geometry of a two-point primitive from its two resolved endpoints: the
midpoint as translation, yaw `atan2 dy dx` as direction, and scale
`(length, width, 1)` where `length` is the planar distance between the
endpoints. It is a pure function of `(start, end, width)` — that is its
signature at the call sites in `src/rmf_site_editor/src/site/measurement.rs`. -/
noncomputable def line_stroke_transform (p1 p2 : Vec3) (width : ℝ) : Transform :=
  let dx := p2.x - p1.x
  let dy := p2.y - p1.y
  let length := Real.sqrt (dx * dx + dy * dy)
  let yaw := atan2 dy dx
  { translation := ⟨(p1.x + p2.x) / 2, (p1.y + p2.y) / 2, (p1.z + p2.z) / 2⟩
    yaw := yaw
    scale := ⟨length, width, 1⟩ }

/-- The transform written for a measurement segment: `line_stroke_transform`
followed by `transform.translation.z = MEASUREMENT_LAYER_START`, exactly as in
`add_measurement_visuals` and `update_measurement_visual`
(`src/rmf_site_editor/src/site/measurement.rs`). -/
noncomputable def measTransform (p1 p2 : Vec3) : Transform :=
  let t := line_stroke_transform p1 p2 LANE_WIDTH
  { t with translation := ⟨t.translation.x, t.translation.y, (MEASUREMENT_LAYER_START : ℝ)⟩ }

/-- Embeds `update_measurement_visual` of
`src/rmf_site_editor/src/site/measurement.rs`. The two
`anchors.point_in_parent_frame_of(...)` resolutions are modelled from the spec
(the `AnchorParams` implementation is not among the supplied sources) as a
lookup in a positions map already expressed in the dependent's parent frame;
`.unwrap()` on a failed resolution panics, embedded as `none`. On success the
measurement's transform is overwritten wholesale with the freshly computed
stroke. -/
noncomputable def update_measurement_visual (pos : Nat → Option Vec3) (edge : Edge) :
    Option Transform :=
  match pos edge.start, pos edge.stop with
  | some p1, some p2 => some (measTransform p1 p2)
  | _, _ => none

/-- `HashSet::insert` on a `Dependents` set, embedded as a duplicate-free list:
inserting a member again leaves the set as it is. (The `Dependents` component
itself is modelled from the spec, §4.2: an insertion-order-irrelevant set of
dependent ids; `rmf_site_format` only shows its sibling `ConstraintDependents`
as a `HashSet<Entity>`.) -/
def insertDep (ds : List Nat) (e : Nat) : List Nat :=
  if e ∈ ds then ds else ds ++ [e]

/-- One iteration of the registration loop of `add_measurement_visuals`:
`if let Ok(mut deps) = dependents.get_mut(*anchor) { deps.insert(e); }` —
anchors that have no `Dependents` component are silently skipped. -/
def registerAnchor (deps : Nat → Option (List Nat)) (a : Nat) (e : Nat) :
    Nat → Option (List Nat) :=
  match deps a with
  | some ds => fun n => if n = a then some (insertDep ds e) else deps n
  | none => deps

/-- The registration loop of `add_measurement_visuals` over
`edge.array() = [start, end]`. -/
def registerEdge (deps : Nat → Option (List Nat)) (edge : Edge) (e : Nat) :
    Nat → Option (List Nat) :=
  registerAnchor (registerAnchor deps edge.start e) edge.stop e

/-- Embeds `add_measurement_visuals` of
`src/rmf_site_editor/src/site/measurement.rs`: for every newly added
measurement `(e, edge, seg)` (the `Added<MeasurementMarker>` query; `seg` is
the id the ECS gives the spawned segment child), resolve both endpoints
(`.unwrap()` panics on failure, embedded as `none` for the whole tick), spawn
the segment child with the stroke transform, and register `e` with every
anchor of `edge.array()` that has a `Dependents` component. Returns the
updated dependents map and the spawned `(segment, transform)` children. -/
noncomputable def add_measurement_visuals (pos : Nat → Option Vec3) :
    (Nat → Option (List Nat)) → List (Nat × Edge × Nat) →
    Option ((Nat → Option (List Nat)) × List (Nat × Transform))
  | deps, [] => some (deps, [])
  | deps, (e, edge, seg) :: rest =>
    match pos edge.start, pos edge.stop with
    | some p1, some p2 =>
      (add_measurement_visuals pos (registerEdge deps edge e) rest).map
        (fun r => (r.1, (seg, measTransform p1 p2) :: r.2))
    | _, _ => none

/-- Pointwise update of a keyed map, embedding a write through
`transforms.get_mut(id)`. -/
def updateFn {α : Type} (f : Nat → Option α) (k : Nat) (v : α) : Nat → Option α :=
  fun n => if n = k then some v else f n

/-- Embeds `update_changed_measurement` of
`src/rmf_site_editor/src/site/measurement.rs`: for every measurement whose
`Edge` changed this tick (the `Changed<Edge<Entity>>` query, given as a list of
`(entity, edge, segment)`), if the segment has a `Transform`, recompute it via
`update_measurement_visual` — whose `.unwrap()` panic aborts the whole system,
embedded as `none`. `Dependents` sets are not read or written by this system. -/
noncomputable def update_changed_measurement (pos : Nat → Option Vec3) :
    (Nat → Option Transform) → List (Nat × Edge × Nat) →
    Option (Nat → Option Transform)
  | tfs, [] => some tfs
  | tfs, (_, edge, seg) :: rest =>
    match tfs seg with
    | none => update_changed_measurement pos tfs rest
    | some _ =>
      match update_measurement_visual pos edge with
      | none => none
      | some tf => update_changed_measurement pos (updateFn tfs seg tf) rest

/-- The inner loop of `update_measurement_for_moved_anchors` over one changed
anchor's `Dependents`: dependents that are not measurements, or whose segment
has no `Transform`, are skipped; otherwise the segment transform is recomputed
(a failed anchor resolution panics, embedded as `none`). Besides the updated
transforms it returns the list of dependents whose geometry was recomputed, in
order — one entry per call of `update_measurement_visual`. -/
noncomputable def processDeps (pos : Nat → Option Vec3)
    (ms : Nat → Option (Edge × Nat)) :
    (Nat → Option Transform) → List Nat →
    Option ((Nat → Option Transform) × List Nat)
  | tfs, [] => some (tfs, [])
  | tfs, d :: rest =>
    match ms d with
    | none => processDeps pos ms tfs rest
    | some (edge, seg) =>
      match tfs seg with
      | none => processDeps pos ms tfs rest
      | some _ =>
        match update_measurement_visual pos edge with
        | none => none
        | some tf =>
          (processDeps pos ms (updateFn tfs seg tf) rest).map
            (fun r => (r.1, d :: r.2))

/-- Embeds `update_measurement_for_moved_anchors` of
`src/rmf_site_editor/src/site/measurement.rs`: the outer loop over the
`Dependents` sets of the changed anchors (the query yields one `&Dependents`
per changed anchor), running the inner dependent loop for each. The second
component of the result is the concatenated recomputation log. -/
noncomputable def update_measurement_for_moved_anchors (pos : Nat → Option Vec3)
    (ms : Nat → Option (Edge × Nat)) :
    (Nat → Option Transform) → List (List Nat) →
    Option ((Nat → Option Transform) × List Nat)
  | tfs, [] => some (tfs, [])
  | tfs, ds :: rest =>
    match processDeps pos ms tfs ds with
    | none => none
    | some r =>
      (update_measurement_for_moved_anchors pos ms r.1 rest).map
        (fun r2 => (r2.1, r.2 ++ r2.2))

/-- The bidirectional-consistency invariant of the spec (§3, §8): a dependent
is a member of an anchor's `Dependents` set iff the dependent's current edge
names that anchor. -/
def depsInvariant (deps : Nat → Option (List Nat)) (ms : List (Nat × Edge × Nat)) : Prop :=
  ∀ a ds, deps a = some ds → ∀ d e seg, (d, e, seg) ∈ ms → (d ∈ ds ↔ a ∈ e.array)

/-- Modelled from the spec: `RecencyRank<DrawingMarker>` and its `proportion()`
live in the recency-ranking module, which is not among the supplied sources.
§4.4: the rank is an ordinal within the category which the resolver maps
linearly into the category's band; the embedding carries the resulting
proportion, a rational in `[0, 1]`, directly. -/
structure RecencyRank where
  proportion : ℚ

/-- Embeds `drawing_layer_height` of `src/rmf_site_editor/src/site/drawing.rs`:
`rank.map(|r| r.proportion() * (FLOOR_LAYER_START - DRAWING_LAYER_START) +
DRAWING_LAYER_START).unwrap_or(DRAWING_LAYER_START)`. -/
def drawing_layer_height (rank : Option RecencyRank) : ℚ :=
  match rank with
  | some r => r.proportion * (FLOOR_LAYER_START - DRAWING_LAYER_START) + DRAWING_LAYER_START
  | none => DRAWING_LAYER_START

/-- Modelled from the spec: the floor category's own rank resolver is in the
floor module, which is not among the supplied sources. §4.4 gives every
category the same shape of contract — `layer_offset(ordinal, category_band)`
maps the ordinal linearly into the category's reserved band — so floors map
their proportion linearly from the band's start at `FLOOR_LAYER_START`, width
`w`. -/
def floor_layer_height (w : ℚ) (rank : Option RecencyRank) : ℚ :=
  match rank with
  | some r => r.proportion * w + FLOOR_LAYER_START
  | none => FLOOR_LAYER_START

/-- Embeds `update_drawing_rank` of `src/rmf_site_editor/src/site/drawing.rs`:
for every drawing whose `RecencyRank<DrawingMarker>` changed (given as
`(segments.leaf, rank)` pairs), if the leaf has a `Transform`, overwrite only
`translation.z` with `drawing_layer_height(Some(rank))`. -/
noncomputable def update_drawing_rank :
    List (Nat × RecencyRank) → (Nat → Option Transform) → Nat → Option Transform
  | [], tfs => tfs
  | (leaf, r) :: rest, tfs =>
    match tfs leaf with
    | none => update_drawing_rank rest tfs
    | some tf =>
      update_drawing_rank rest
        (updateFn tfs leaf
          ⟨⟨tf.translation.x, tf.translation.y, ((drawing_layer_height (some r) : ℚ) : ℝ)⟩,
            tf.yaw, tf.scale⟩)

/-- Embeds `update_drawing_pixels_per_meter` of
`src/rmf_site_editor/src/site/drawing.rs`: the `Changed<PixelsPerMeter>` query
yields `(&mut Transform, &PixelsPerMeter)` pairs, and each transform's scale is
overwritten with `Vec3::new(1.0 / ppm, 1.0 / ppm, 1.)`. -/
noncomputable def update_drawing_pixels_per_meter (q : List (Transform × ℝ)) :
    List (Transform × ℝ) :=
  q.map (fun tp => (⟨tp.1.translation, tp.1.yaw, ⟨1 / tp.2, 1 / tp.2, 1⟩⟩, tp.2))

/-- Embeds `Vertex` of the sandbox (fields used by `Measurement::spawn`). -/
structure Vertex where
  x_meters : ℝ
  y_meters : ℝ

/-- Embeds the sandbox `LevelTransform` (only `translation[2]` is read). -/
structure LevelTransform where
  translation : Vec3

/-- Embeds the sandbox `Measurement` component of
`src/rmf_sandbox/src/measurement.rs` (`end` is a Lean keyword, so that field
is named `stop`). -/
structure Measurement where
  start : Nat
  stop : Nat
  distance : ℝ

/-- What `Measurement::spawn` writes into the spawned `PbrBundle`: the
transform (translation and z-rotation yaw) and the `shape::Quad` dimensions
`[length, width]`. -/
structure Spawned where
  translation : Vec3
  yaw : ℝ
  quadDims : ℝ × ℝ

/-- Embeds `Measurement::spawn` of `src/rmf_sandbox/src/measurement.rs`:
`vertices[self.start]` and `vertices[self.end]` are unchecked indexings (an
out-of-bounds index panics, embedded as `none`); then `dx`, `dy`, the length
`Vec2::length = sqrt(dx² + dy²)`, `yaw = dy.atan2(dx)`, the midpoint `(cx, cy)`
and `z = 0.01 + transform.translation[2]`, the quad `[length, 0.25]`. -/
noncomputable def Measurement.spawn (m : Measurement) (vertices : List Vertex)
    (transform : LevelTransform) : Option Spawned :=
  match vertices.get? m.start, vertices.get? m.stop with
  | some v1, some v2 =>
    let dx := v2.x_meters - v1.x_meters
    let dy := v2.y_meters - v1.y_meters
    let length := Real.sqrt (dx * dx + dy * dy)
    let width : ℝ := 1/4
    let yaw := atan2 dy dx
    let cx := (v1.x_meters + v2.x_meters) / 2
    let cy := (v1.y_meters + v2.y_meters) / 2
    some ⟨⟨cx, cy, 1/100 + transform.translation.z⟩, yaw, (length, width)⟩
  | _, _ => none

/-- A vertex's position as a point of the Euclidean plane. -/
noncomputable def vpos (v : Vertex) : EuclideanSpace ℝ (Fin 2) :=
  ![v.x_meters, v.y_meters]

/-- An anchor position's planar part as a point of the Euclidean plane. -/
noncomputable def planar (p : Vec3) : EuclideanSpace ℝ (Fin 2) :=
  ![p.x, p.y]

/-- Modelled from the spec: `rmf_site_format::Anchor` lives in the anchor
module, which is not among the supplied sources; §3 gives it a 2D position.
Its serde fields are flattened into the frame's object. -/
structure AnchorData where
  px : ℚ
  py : ℚ
  deriving DecidableEq

/-- Embeds `Frame` of `src/rmf_site_format/src/workcell.rs`: the flattened
anchor plus the `#[serde(skip)]`-ped `FrameMarker` (carried by no field). -/
structure Frame where
  anchor : AnchorData
  deriving DecidableEq

/-- Modelled from the spec: `rmf_site_format::Model` is not among the supplied
sources; §6 only needs it to be a named payload hanging in the id-keyed tree. -/
structure ModelData where
  name : String
  deriving DecidableEq

/-- Embeds `WorkcellProperties` of `src/rmf_site_format/src/workcell.rs`. -/
structure WorkcellProperties where
  name : String
  deriving DecidableEq

/-- Embeds `Parented<u32, T>` of `src/rmf_site_format/src/workcell.rs`: an
optional parent id plus the `#[serde(flatten)]`-ed bundle. -/
structure Parented (T : Type) where
  parent : Option Nat
  bundle : T
  deriving DecidableEq

/-- Embeds `Workcell` of `src/rmf_site_format/src/workcell.rs`: the flattened
properties and the two id-keyed maps (`BTreeMap<u32, Parented<u32, _>>`,
embedded as association lists in key order). -/
structure Workcell where
  properties : WorkcellProperties
  frames : List (Nat × Parented Frame)
  models : List (Nat × Parented ModelData)
  deriving DecidableEq

/-- The JSON documents `serde_json` produces for `Workcell::to_string` /
consumes for `Workcell::from_str`, as trees (the concrete text rendering and
parsing are `serde_json`'s, outside this repository); object keys are carried
as character lists because `serde_json` serializes the `u32` map keys as
decimal strings. -/
inductive Json where
  | num : ℚ → Json
  | str : String → Json
  | jnull : Json
  | obj : List (List Char × Json) → Json

/-- The decimal-string key `serde_json` writes for a `u32` map key. -/
def natKey (n : Nat) : List Char :=
  if n = 0 then ['0'] else ((Nat.digits 10 n).map Nat.digitChar).reverse

/-- The digit value of a decimal character, `none` for a non-digit. -/
def charDigit (c : Char) : Option Nat :=
  if 48 ≤ c.toNat ∧ c.toNat ≤ 57 then some (c.toNat - 48) else none

/-- All-or-nothing digit values of a character list. -/
def digitsOf : List Char → Option (List Nat)
  | [] => some []
  | c :: rest =>
    match charDigit c, digitsOf rest with
    | some d, some ds => some (d :: ds)
    | _, _ => none

/-- Parse a decimal-string key back to the `u32` map key. -/
def parseKey (cs : List Char) : Option Nat :=
  if cs.isEmpty then none
  else (digitsOf cs.reverse).map (Nat.ofDigits 10)

/-- A `u32` value as a JSON number. -/
def encNat (n : Nat) : Json := Json.num n

/-- A JSON number read back as a `u32` value. -/
def decNat : Json → Option Nat
  | Json.num q => if q.den = 1 ∧ 0 ≤ q.num then some q.num.toNat else none
  | _ => none

/-- An `Option<u32>` value: `None` is JSON `null`. -/
def encOptNat : Option Nat → Json
  | none => Json.jnull
  | some n => encNat n

/-- A JSON value read back as an `Option<u32>`. -/
def decOptNat : Json → Option (Option Nat)
  | Json.jnull => some none
  | j => (decNat j).map some

/-- A JSON value read back as a rational number. -/
def decNum : Json → Option ℚ
  | Json.num q => some q
  | _ => none

/-- A JSON value read back as a string. -/
def decStr : Json → Option String
  | Json.str s => some s
  | _ => none

/-- Field lookup in a JSON object's entry list. -/
def getField (fields : List (List Char × Json)) (k : List Char) : Option Json :=
  match fields with
  | [] => none
  | (k', v) :: rest => if k' = k then some v else getField rest k

/-- A `Parented<u32, Frame>` object: the `parent` field plus the flattened
frame, whose own flattened anchor contributes the position fields. -/
def encParentedFrame (pf : Parented Frame) : Json :=
  Json.obj [("parent".toList, encOptNat pf.parent),
            ("x".toList, Json.num pf.bundle.anchor.px),
            ("y".toList, Json.num pf.bundle.anchor.py)]

/-- Read back a `Parented<u32, Frame>`. -/
def decParentedFrame (j : Json) : Option (Parented Frame) :=
  match j with
  | Json.obj fields =>
    match getField fields "parent".toList, getField fields "x".toList,
        getField fields "y".toList with
    | some jp, some jx, some jy =>
      match decOptNat jp, decNum jx, decNum jy with
      | some p, some x, some y => some ⟨p, ⟨⟨x, y⟩⟩⟩
      | _, _, _ => none
    | _, _, _ => none
  | _ => none

/-- A `Parented<u32, Model>` object: the `parent` field plus the flattened
model payload. -/
def encParentedModel (pm : Parented ModelData) : Json :=
  Json.obj [("parent".toList, encOptNat pm.parent),
            ("name".toList, Json.str pm.bundle.name)]

/-- Read back a `Parented<u32, Model>`. -/
def decParentedModel (j : Json) : Option (Parented ModelData) :=
  match j with
  | Json.obj fields =>
    match getField fields "parent".toList, getField fields "name".toList with
    | some jp, some jn =>
      match decOptNat jp, decStr jn with
      | some p, some n => some ⟨p, ⟨n⟩⟩
      | _, _ => none
    | _, _ => none
  | _ => none

/-- An id-keyed map as a JSON object, keys rendered as decimal strings. -/
def encEntries {T : Type} (encV : T → Json) (l : List (Nat × T)) :
    List (List Char × Json) :=
  l.map (fun kv => (natKey kv.1, encV kv.2))

/-- Read back an id-keyed map, entry by entry. -/
def decEntries {T : Type} (decV : Json → Option T) :
    List (List Char × Json) → Option (List (Nat × T))
  | [] => some []
  | (k, v) :: rest =>
    match parseKey k, decV v, decEntries decV rest with
    | some n, some t, some l => some ((n, t) :: l)
    | _, _, _ => none

/-- Embeds `Workcell::to_string` / `to_writer` (the serde derive of
`src/rmf_site_format/src/workcell.rs`): the flattened `name`, the `frames`
map and the `models` map. -/
def Workcell.toJson (w : Workcell) : Json :=
  Json.obj [("name".toList, Json.str w.properties.name),
            ("frames".toList, Json.obj (encEntries encParentedFrame w.frames)),
            ("models".toList, Json.obj (encEntries encParentedModel w.models))]

/-- Embeds `Workcell::from_str` / `from_reader` on an already-parsed JSON
document. -/
def Workcell.fromJson (j : Json) : Option Workcell :=
  match j with
  | Json.obj fields =>
    match getField fields "name".toList, getField fields "frames".toList,
        getField fields "models".toList with
    | some jn, some (Json.obj jf), some (Json.obj jm) =>
      match decStr jn, decEntries decParentedFrame jf, decEntries decParentedModel jm with
      | some n, some fs, some ms => some ⟨⟨n⟩, fs, ms⟩
      | _, _, _ => none
    | _, _, _ => none
  | _ => none

lemma charDigit_digitChar (d : Nat) (hd : d < 10) :
    charDigit (Nat.digitChar d) = some d := by
  interval_cases d <;> rfl

lemma digitsOf_map_digitChar :
    ∀ L : List Nat, (∀ d ∈ L, d < 10) → digitsOf (L.map Nat.digitChar) = some L := by
  intro L
  induction L with
  | nil => intro _; rfl
  | cons d rest ih =>
    intro h
    simp only [List.map_cons, digitsOf]
    rw [charDigit_digitChar d (h d (by simp)), ih (fun x hx => h x (by simp [hx]))]

lemma parseKey_natKey (n : Nat) : parseKey (natKey n) = some n := by
  by_cases h0 : n = 0
  · subst h0
    rfl
  · have hne : Nat.digits 10 n ≠ [] := Nat.digits_ne_nil_iff_ne_zero.mpr h0
    have hmap : (Nat.digits 10 n).map Nat.digitChar ≠ [] := by simpa using hne
    unfold natKey parseKey
    rw [if_neg h0]
    rw [if_neg (by simpa [List.isEmpty_iff] using fun hc => hmap (List.reverse_eq_nil_iff.mp hc))]
    rw [List.reverse_reverse]
    rw [digitsOf_map_digitChar _ (fun d hd => Nat.digits_lt_base (by norm_num) hd)]
    simp [Nat.ofDigits_digits]

lemma decNat_encNat (n : Nat) : decNat (encNat n) = some n := by
  simp [encNat, decNat]

lemma decOptNat_encOptNat (o : Option Nat) : decOptNat (encOptNat o) = some o := by
  cases o with
  | none => rfl
  | some n => simp [encOptNat, encNat, decOptNat, decNat]

lemma decParentedFrame_enc (pf : Parented Frame) :
    decParentedFrame (encParentedFrame pf) = some pf := by
  obtain ⟨p, ⟨⟨x, y⟩⟩⟩ := pf
  simp [encParentedFrame, decParentedFrame, getField, decOptNat_encOptNat, decNum]

lemma decParentedModel_enc (pm : Parented ModelData) :
    decParentedModel (encParentedModel pm) = some pm := by
  obtain ⟨p, ⟨nm⟩⟩ := pm
  simp [encParentedModel, decParentedModel, getField, decOptNat_encOptNat, decStr]

lemma decEntries_encEntries {T : Type} (decV : Json → Option T) (encV : T → Json)
    (hV : ∀ v, decV (encV v) = some v) :
    ∀ l : List (Nat × T), decEntries decV (encEntries encV l) = some l := by
  intro l
  induction l with
  | nil => rfl
  | cons kv rest ih =>
    obtain ⟨k, v⟩ := kv
    simp only [encEntries, List.map_cons] at ih ⊢
    simp only [decEntries, parseKey_natKey, hV, ih]

/-- Claim C8: serializing a workcell and deserializing the result reproduces
the workcell verbatim — the identical parent/child structure and reference
targets (the embedding keeps the `u32` ids; remapping those to runtime entity
handles happens in the ECS loading code, outside the format). -/
theorem c8_theorem : ∀ w : Workcell, Workcell.fromJson (Workcell.toJson w) = some w := by
  intro w
  obtain ⟨⟨nm⟩, frames, models⟩ := w
  have h1 : Workcell.fromJson (Workcell.toJson ⟨⟨nm⟩, frames, models⟩) =
      (match (some nm : Option String),
          decEntries decParentedFrame (encEntries encParentedFrame frames),
          decEntries decParentedModel (encEntries encParentedModel models) with
        | some n, some fs, some ms => some (⟨⟨n⟩, fs, ms⟩ : Workcell)
        | _, _, _ => none) := rfl
  rw [h1, decEntries_encEntries decParentedFrame encParentedFrame decParentedFrame_enc frames,
    decEntries_encEntries decParentedModel encParentedModel decParentedModel_enc models]

/-- A concrete two-frame, one-model workcell. -/
def wSample : Workcell :=
  ⟨⟨"cell"⟩, [(0, ⟨none, ⟨⟨0, 0⟩⟩⟩), (1, ⟨some 0, ⟨⟨1, 2⟩⟩⟩)], [(2, ⟨some 1, ⟨"box"⟩⟩)]⟩

/-- Witness for C8: the round-trip at a concrete workcell graph. -/
theorem c8_witness : Workcell.fromJson (Workcell.toJson wSample) = some wSample :=
  c8_theorem wSample

/-- A concrete transform used by witnesses and counterexamples. -/
noncomputable def tf0 : Transform := ⟨⟨0, 0, 0⟩, 0, ⟨1, 1, 1⟩⟩

/-- Claim C9: `Measurement::spawn` indexes the vertex list with the unchecked
indices `start` and `end`; whenever both are strictly below the vertex count
the panic branch is unreachable (spawn returns a value), and the input
`start = 1` against a single-vertex list panics (embedded as `none`). -/
theorem c9_theorem :
    (∀ (m : Measurement) (vs : List Vertex) (t : LevelTransform),
      m.start < vs.length → m.stop < vs.length → (m.spawn vs t).isSome) ∧
    Measurement.spawn ⟨1, 0, 0⟩ [⟨0, 0⟩] ⟨⟨0, 0, 0⟩⟩ = none := by
  constructor
  · intro m vs t h1 h2
    simp [Measurement.spawn, List.getElem?_eq_getElem, h1, h2]
  · simp [Measurement.spawn]

/-- Witness for C9: a concrete in-bounds spawn returns a value. -/
theorem c9_witness :
    (Measurement.spawn ⟨0, 0, 0⟩ [⟨0, 0⟩] ⟨⟨0, 0, 0⟩⟩).isSome :=
  c9_theorem.1 ⟨0, 0, 0⟩ [⟨0, 0⟩] ⟨⟨0, 0, 0⟩⟩ (by decide) (by decide)

/-- Claim C10: for every drawing in the changed-`PixelsPerMeter` query, the
update sets the transform's scale to exactly `(1/p, 1/p, 1)` and leaves its
translation and rotation unchanged. -/
theorem c10_theorem :
    ∀ (q : List (Transform × ℝ)) (i : Nat) (tf : Transform) (p : ℝ),
    q[i]? = some (tf, p) →
    ∃ tf', (update_drawing_pixels_per_meter q)[i]? = some (tf', p) ∧
      tf'.scale = ⟨1 / p, 1 / p, 1⟩ ∧ tf'.translation = tf.translation ∧
      tf'.yaw = tf.yaw := by
  intro q i tf p h
  simp only [update_drawing_pixels_per_meter, List.getElem?_map, h, Option.map_some']
  exact ⟨_, rfl, rfl, rfl, rfl⟩

/-- Witness for C10 at a concrete drawing with `PixelsPerMeter` 2. -/
theorem c10_witness :
    ∃ tf', (update_drawing_pixels_per_meter [(tf0, 2)])[0]? = some (tf', 2) ∧
      tf'.scale = ⟨1 / 2, 1 / 2, 1⟩ ∧ tf'.translation = tf0.translation ∧
      tf'.yaw = tf0.yaw :=
  c10_theorem [(tf0, 2)] 0 tf0 2 rfl

/-- Claim C6: `update_drawing_rank` touches nothing of any entity outside the
changed-rank query, and for a changed entity it rewrites only the z component:
x, y, rotation and scale are carried over. -/
theorem c6_theorem :
    ∀ (changed : List (Nat × RecencyRank)) (tfs : Nat → Option Transform) (n : Nat),
    (n ∉ changed.map Prod.fst → update_drawing_rank changed tfs n = tfs n) ∧
    (∀ tf tf', tfs n = some tf → update_drawing_rank changed tfs n = some tf' →
      tf'.translation.x = tf.translation.x ∧ tf'.translation.y = tf.translation.y ∧
      tf'.yaw = tf.yaw ∧ tf'.scale = tf.scale) := by
  intro changed
  induction changed with
  | nil =>
    intro tfs n
    refine ⟨fun _ => rfl, fun tf tf' h1 h2 => ?_⟩
    simp only [update_drawing_rank] at h2
    rw [h1] at h2
    cases h2
    exact ⟨rfl, rfl, rfl, rfl⟩
  | cons hd rest ih =>
    obtain ⟨leaf, r⟩ := hd
    intro tfs n
    constructor
    · intro hn
      simp only [List.map_cons, List.mem_cons] at hn
      push_neg at hn
      obtain ⟨hne, hnr⟩ := hn
      cases h : tfs leaf with
      | none =>
        simp only [update_drawing_rank, h]
        exact (ih tfs n).1 hnr
      | some tfL =>
        simp only [update_drawing_rank, h]
        rw [(ih _ n).1 hnr]
        simp [updateFn, hne]
    · intro tf tf' h1 h2
      cases h : tfs leaf with
      | none =>
        simp only [update_drawing_rank, h] at h2
        exact (ih tfs n).2 tf tf' h1 h2
      | some tfL =>
        simp only [update_drawing_rank, h] at h2
        by_cases hn : n = leaf
        · subst hn
          have htfL : tfL = tf := Option.some.inj (h.symm.trans h1)
          subst htfL
          have hm1 : updateFn tfs n
              ⟨⟨tfL.translation.x, tfL.translation.y,
                ((drawing_layer_height (some r) : ℚ) : ℝ)⟩, tfL.yaw, tfL.scale⟩ n =
              some ⟨⟨tfL.translation.x, tfL.translation.y,
                ((drawing_layer_height (some r) : ℚ) : ℝ)⟩, tfL.yaw, tfL.scale⟩ := by
            simp [updateFn]
          exact (ih _ n).2
            ⟨⟨tfL.translation.x, tfL.translation.y,
              ((drawing_layer_height (some r) : ℚ) : ℝ)⟩, tfL.yaw, tfL.scale⟩ tf' hm1 h2
        · have hm1 : updateFn tfs leaf
              ⟨⟨tfL.translation.x, tfL.translation.y,
                ((drawing_layer_height (some r) : ℚ) : ℝ)⟩, tfL.yaw, tfL.scale⟩ n =
              some tf := by
            simp [updateFn, hn, h1]
          exact (ih _ n).2 tf tf' hm1 h2

/-- Witness for C6: with only entity 20's rank changed, entity 21's transform
is untouched and entity 20 keeps its x, y, rotation and scale. -/
theorem c6_witness :
    update_drawing_rank [(20, ⟨1⟩)] (fun k => if k = 20 ∨ k = 21 then some tf0 else none) 21 =
      (fun k => if k = 20 ∨ k = 21 then some tf0 else none) 21 :=
  (c6_theorem [(20, ⟨1⟩)] (fun k => if k = 20 ∨ k = 21 then some tf0 else none) 21).1
    (by decide)

/-- Pointwise growth of a dependents map: every present set stays present and
only gains members. -/
def DepsLe (d1 d2 : Nat → Option (List Nat)) : Prop :=
  ∀ a ds, d1 a = some ds → ∃ ds', d2 a = some ds' ∧ ds ⊆ ds'

lemma depsLe_refl (d : Nat → Option (List Nat)) : DepsLe d d :=
  fun _ ds h => ⟨ds, h, fun _ hx => hx⟩

lemma depsLe_trans {d1 d2 d3 : Nat → Option (List Nat)}
    (h12 : DepsLe d1 d2) (h23 : DepsLe d2 d3) : DepsLe d1 d3 := by
  intro a ds h
  obtain ⟨ds2, hd2, s2⟩ := h12 a ds h
  obtain ⟨ds3, hd3, s3⟩ := h23 a ds2 hd2
  exact ⟨ds3, hd3, fun x hx => s3 (s2 hx)⟩

lemma subset_insertDep (ds : List Nat) (e : Nat) : ds ⊆ insertDep ds e := by
  unfold insertDep
  split
  · exact fun _ hx => hx
  · exact List.subset_append_left _ _

lemma mem_insertDep (ds : List Nat) (e : Nat) : e ∈ insertDep ds e := by
  unfold insertDep
  split
  · assumption
  · simp

lemma registerAnchor_le (d : Nat → Option (List Nat)) (a e : Nat) :
    DepsLe d (registerAnchor d a e) := by
  intro b ds h
  unfold registerAnchor
  cases hda : d a with
  | none => exact ⟨ds, h, fun _ hx => hx⟩
  | some ds0 =>
    by_cases hb : b = a
    · subst hb
      rw [h] at hda
      cases hda
      exact ⟨insertDep ds e, by simp, subset_insertDep ds e⟩
    · exact ⟨ds, by simp [hb, h], fun _ hx => hx⟩

lemma registerAnchor_self (d : Nat → Option (List Nat)) (a e : Nat) (ds : List Nat)
    (h : d a = some ds) : registerAnchor d a e a = some (insertDep ds e) := by
  unfold registerAnchor
  rw [h]
  simp

lemma registerEdge_le (d : Nat → Option (List Nat)) (edge : Edge) (e : Nat) :
    DepsLe d (registerEdge d edge e) :=
  depsLe_trans (registerAnchor_le d edge.start e) (registerAnchor_le _ edge.stop e)

lemma registerEdge_mem (d : Nat → Option (List Nat)) (edge : Edge) (e a : Nat)
    (ds : List Nat) (hds : d a = some ds) (ha : a ∈ edge.array) :
    ∃ ds', registerEdge d edge e a = some ds' ∧ e ∈ ds' := by
  rcases (by simpa [Edge.array] using ha : a = edge.start ∨ a = edge.stop) with h | h
  · rw [h] at hds ⊢
    have h1 : registerAnchor d edge.start e edge.start = some (insertDep ds e) :=
      registerAnchor_self d edge.start e ds hds
    obtain ⟨ds2, hd2, s2⟩ :=
      registerAnchor_le (registerAnchor d edge.start e) edge.stop e edge.start _ h1
    exact ⟨ds2, hd2, s2 (mem_insertDep ds e)⟩
  · rw [h] at hds ⊢
    obtain ⟨ds1, hd1, _⟩ := registerAnchor_le d edge.start e edge.stop ds hds
    exact ⟨insertDep ds1 e,
      registerAnchor_self (registerAnchor d edge.start e) edge.stop e ds1 hd1,
      mem_insertDep ds1 e⟩

lemma add_measurement_visuals_le (pos : Nat → Option Vec3) :
    ∀ (added : List (Nat × Edge × Nat)) (deps : Nat → Option (List Nat)) r,
    add_measurement_visuals pos deps added = some r → DepsLe deps r.1 := by
  intro added
  induction added with
  | nil =>
    intro deps r h
    simp only [add_measurement_visuals] at h
    cases h
    exact depsLe_refl deps
  | cons hd rest ih =>
    obtain ⟨e, edge, seg⟩ := hd
    intro deps r h
    simp only [add_measurement_visuals] at h
    cases hp1 : pos edge.start <;> simp only [hp1] at h
    · exact Option.noConfusion h
    cases hp2 : pos edge.stop <;> simp only [hp2] at h
    · exact Option.noConfusion h
    obtain ⟨r0, hr0, hf⟩ := Option.map_eq_some'.mp h
    rw [← hf]
    exact depsLe_trans (registerEdge_le deps edge e) (ih _ r0 hr0)

/-- The Euclidean plane distance, rewritten into the code's
`sqrt (dx*dx + dy*dy)` shape. -/
lemma dist_plane (a b : EuclideanSpace ℝ (Fin 2)) :
    dist a b = Real.sqrt ((b 0 - a 0) * (b 0 - a 0) + (b 1 - a 1) * (b 1 - a 1)) := by
  rw [EuclideanSpace.dist_eq, Fin.sum_univ_two, Real.dist_eq, Real.dist_eq]
  congr 1
  rw [sq_abs, sq_abs]
  ring

/-- `atan2` at the degenerate origin input. -/
lemma atan2_zero_zero : atan2 0 0 = 0 := by
  simp [atan2]

/-- Claim C4: for a two-point dependent whose resolved endpoints differ, the
recomputed length equals the Euclidean distance between the endpoint positions
and the recomputed yaw equals `atan2 dy dx` of the end-minus-start
displacement — for the sandbox `Measurement::spawn` and for the editor's
measurement recomputation. -/
theorem c4_theorem :
    (∀ (m : Measurement) (vs : List Vertex) (t : LevelTransform) (v1 v2 : Vertex),
      vs[m.start]? = some v1 → vs[m.stop]? = some v2 →
      (v1.x_meters, v1.y_meters) ≠ (v2.x_meters, v2.y_meters) →
      ∃ s, m.spawn vs t = some s ∧
        s.quadDims.1 = dist (vpos v1) (vpos v2) ∧
        s.yaw = atan2 (v2.y_meters - v1.y_meters) (v2.x_meters - v1.x_meters)) ∧
    (∀ (pos : Nat → Option Vec3) (edge : Edge) (p1 p2 : Vec3),
      pos edge.start = some p1 → pos edge.stop = some p2 →
      (p1.x, p1.y) ≠ (p2.x, p2.y) →
      ∃ tf, update_measurement_visual pos edge = some tf ∧
        tf.scale.x = dist (planar p1) (planar p2) ∧
        tf.yaw = atan2 (p2.y - p1.y) (p2.x - p1.x)) := by
  constructor
  · intro m vs t v1 v2 h1 h2 hne
    have hs : m.spawn vs t = some
        ⟨⟨(v1.x_meters + v2.x_meters) / 2, (v1.y_meters + v2.y_meters) / 2,
            1/100 + t.translation.z⟩,
          atan2 (v2.y_meters - v1.y_meters) (v2.x_meters - v1.x_meters),
          (Real.sqrt ((v2.x_meters - v1.x_meters) * (v2.x_meters - v1.x_meters) +
            (v2.y_meters - v1.y_meters) * (v2.y_meters - v1.y_meters)), 1/4)⟩ := by
      simp only [Measurement.spawn, List.get?_eq_getElem?, h1, h2]
    refine ⟨_, hs, ?_, rfl⟩
    rw [dist_plane (vpos v1) (vpos v2)]
    simp [vpos]
  · intro pos edge p1 p2 h1 h2 hne
    have htf : update_measurement_visual pos edge = some (measTransform p1 p2) := by
      simp only [update_measurement_visual, h1, h2]
    refine ⟨_, htf, ?_, ?_⟩
    · rw [dist_plane (planar p1) (planar p2)]
      simp [measTransform, line_stroke_transform, planar]
    · simp [measTransform, line_stroke_transform]

/-- Witness for C4: vertices `(0,0)` and `(3,4)`. -/
theorem c4_witness :
    ∃ s, Measurement.spawn ⟨0, 1, 5⟩ [⟨0, 0⟩, ⟨3, 4⟩] ⟨⟨0, 0, 0⟩⟩ = some s ∧
      s.quadDims.1 = dist (vpos ⟨0, 0⟩) (vpos ⟨3, 4⟩) ∧
      s.yaw = atan2 ((⟨3, 4⟩ : Vertex).y_meters - (⟨0, 0⟩ : Vertex).y_meters)
        ((⟨3, 4⟩ : Vertex).x_meters - (⟨0, 0⟩ : Vertex).x_meters) :=
  c4_theorem.1 ⟨0, 1, 5⟩ [⟨0, 0⟩, ⟨3, 4⟩] ⟨⟨0, 0, 0⟩⟩ ⟨0, 0⟩ ⟨3, 4⟩ rfl rfl
    (by norm_num [Prod.ext_iff])

/-- Positions for the C5 statements: only anchor 1 exists, at `(2, 3, 0)`. -/
noncomputable def pos5 : Nat → Option Vec3 :=
  fun n => if n = 1 then some ⟨2, 3, 0⟩ else none

/-- Prior transforms for the C5 counterexample: the measurement's segment 20
already holds a transform whose yaw is 1. -/
noncomputable def tfs5 : Nat → Option Transform :=
  fun n => if n = 20 then some ⟨⟨0, 0, 0⟩, 1, ⟨1, 1, 1⟩⟩ else none

/-- Claim C5 fails as stated: recomputing a measurement whose edge has both
ends on anchor 1 does produce length 0, but it does not leave the previously
stored orientation (yaw 1) unchanged — the transform is overwritten with yaw
`atan2 0 0 = 0`. -/
theorem c5_counterexample :
    ∃ t, update_changed_measurement pos5 tfs5 [(10, ⟨1, 1⟩, 20)] = some t ∧
      ∃ tf, t 20 = some tf ∧ tf.scale.x = 0 ∧ tf.yaw = 0 ∧ tf.yaw ≠ (1 : ℝ) := by
  refine ⟨updateFn tfs5 20 (measTransform ⟨2, 3, 0⟩ ⟨2, 3, 0⟩), ?_,
    measTransform ⟨2, 3, 0⟩ ⟨2, 3, 0⟩, by simp [updateFn], ?_, ?_, ?_⟩
  · simp [update_changed_measurement, update_measurement_visual, tfs5, pos5]
  · simp [measTransform, line_stroke_transform]
  · simp [measTransform, line_stroke_transform, atan2_zero_zero]
  · simp [measTransform, line_stroke_transform, atan2_zero_zero]

/-- Claim C5 amended: recomputing a two-point dependent whose two endpoints
resolve to one position produces length 0 and returns normally (no panic, and
the real-valued embedding is NaN-free), but it overwrites the orientation with
`atan2 0 0 = 0` instead of retaining the prior one — both in the editor's
recomputation and in the sandbox spawner. -/
theorem c5_theorem :
    (∀ (pos : Nat → Option Vec3) (edge : Edge) (p : Vec3),
      pos edge.start = some p → pos edge.stop = some p →
      ∃ tf, update_measurement_visual pos edge = some tf ∧
        tf.scale.x = 0 ∧ tf.yaw = 0) ∧
    (∀ (m : Measurement) (vs : List Vertex) (t : LevelTransform) (v : Vertex),
      vs[m.start]? = some v → vs[m.stop]? = some v →
      ∃ s, m.spawn vs t = some s ∧ s.quadDims.1 = 0 ∧ s.yaw = 0) := by
  constructor
  · intro pos edge p h1 h2
    have htf : update_measurement_visual pos edge = some (measTransform p p) := by
      simp only [update_measurement_visual, h1, h2]
    exact ⟨_, htf, by simp [measTransform, line_stroke_transform],
      by simp [measTransform, line_stroke_transform, atan2_zero_zero]⟩
  · intro m vs t v h1 h2
    have hs : m.spawn vs t = some
        ⟨⟨(v.x_meters + v.x_meters) / 2, (v.y_meters + v.y_meters) / 2,
            1/100 + t.translation.z⟩,
          atan2 (v.y_meters - v.y_meters) (v.x_meters - v.x_meters),
          (Real.sqrt ((v.x_meters - v.x_meters) * (v.x_meters - v.x_meters) +
            (v.y_meters - v.y_meters) * (v.y_meters - v.y_meters)), 1/4)⟩ := by
      simp only [Measurement.spawn, List.get?_eq_getElem?, h1, h2]
    exact ⟨_, hs, by simp, by simp [atan2_zero_zero]⟩

/-- Witness for C5: a concrete degenerate edge on anchor 1. -/
theorem c5_witness :
    ∃ tf, update_measurement_visual pos5 ⟨1, 1⟩ = some tf ∧
      tf.scale.x = 0 ∧ tf.yaw = 0 :=
  c5_theorem.1 pos5 ⟨1, 1⟩ ⟨2, 3, 0⟩ (by simp [pos5]) (by simp [pos5])

/-- Positions for the C1/C2 statements: anchors 1, 2, 3 resolve. -/
noncomputable def pos1 : Nat → Option Vec3 := fun n =>
  if n = 1 then some ⟨0, 0, 0⟩
  else if n = 2 then some ⟨1, 0, 0⟩
  else if n = 3 then some ⟨0, 1, 0⟩ else none

/-- Dependents for the C1 statements: anchors 1, 2, 3 each carry an empty
`Dependents` set. -/
def deps0 : Nat → Option (List Nat) := fun n =>
  if n = 1 ∨ n = 2 ∨ n = 3 then some [] else none

/-- Claim C1 amended: creating a dependent registers it with every anchor of
its edge that has a `Dependents` component — after a successful
`add_measurement_visuals` tick, each added measurement is a member of every
such anchor's set. (The other direction of the claimed iff fails:
`update_changed_measurement` recomputes geometry only and never touches
`Dependents`, so an edge change away from an anchor does not remove the stale
membership — see the counterexample.) -/
theorem c1_theorem :
    ∀ (pos : Nat → Option Vec3) (deps : Nat → Option (List Nat))
      (added : List (Nat × Edge × Nat)) r,
    add_measurement_visuals pos deps added = some r →
    ∀ e edge seg, (e, edge, seg) ∈ added →
    ∀ a, a ∈ edge.array → ∀ ds, deps a = some ds →
    ∃ ds', r.1 a = some ds' ∧ e ∈ ds' := by
  intro pos deps added
  induction added generalizing deps with
  | nil =>
    intro r _ e edge seg hmem
    cases hmem
  | cons hd rest ih =>
    obtain ⟨e0, edge0, seg0⟩ := hd
    intro r h e edge seg hmem a ha ds hds
    simp only [add_measurement_visuals] at h
    cases hp1 : pos edge0.start <;> simp only [hp1] at h
    · exact Option.noConfusion h
    cases hp2 : pos edge0.stop <;> simp only [hp2] at h
    · exact Option.noConfusion h
    obtain ⟨r0, hr0, hf⟩ := Option.map_eq_some'.mp h
    rcases List.mem_cons.mp hmem with hh | hh
    · obtain ⟨he, he2⟩ := Prod.mk.injEq .. ▸ hh
      obtain ⟨hedge, hseg⟩ := Prod.mk.injEq .. ▸ he2
      subst he
      subst hedge
      obtain ⟨ds1, hds1, hmem1⟩ := registerEdge_mem deps edge e a ds hds ha
      obtain ⟨ds', hds', hsub⟩ := add_measurement_visuals_le pos rest _ r0 hr0 a ds1 hds1
      rw [← hf]
      exact ⟨ds', hds', hsub hmem1⟩
    · obtain ⟨ds1, hds1, _⟩ := registerEdge_le deps edge0 e0 a ds hds
      obtain ⟨ds', hds', hmem'⟩ := ih _ r0 hr0 e edge seg hh a ha ds1 hds1
      rw [← hf]
      exact ⟨ds', hds', hmem'⟩

/-- Claim C1 fails as stated: a measurement created on edge `(1, 2)` is
registered with anchors 1 and 2; after its edge is changed to `(3, 2)` and the
propagation tick runs, anchor 1 still lists it although its edge no longer
names anchor 1 — the iff invariant is violated. -/
theorem c1_counterexample :
    ∃ r, add_measurement_visuals pos1 deps0 [(10, ⟨1, 2⟩, 20)] = some r ∧
      (update_changed_measurement pos1 (updateFn (fun _ => none) 20 tf0)
        [(10, ⟨3, 2⟩, 20)]).isSome ∧
      ¬ depsInvariant r.1 [(10, ⟨3, 2⟩, 20)] := by
  refine ⟨(registerEdge deps0 ⟨1, 2⟩ 10, [(20, measTransform ⟨0, 0, 0⟩ ⟨1, 0, 0⟩)]),
    ?_, ?_, ?_⟩
  · simp [add_measurement_visuals, pos1]
  · simp [update_changed_measurement, update_measurement_visual, updateFn, pos1]
  · intro hinv
    have h1 : registerEdge deps0 ⟨1, 2⟩ 10 1 = some [10] := by
      simp [registerEdge, registerAnchor, deps0, insertDep]
    have h2 := (hinv 1 [10] h1 10 ⟨3, 2⟩ 20 (by simp)).mp (by simp)
    simp [Edge.array] at h2

/-- Witness for C1: in the concrete creation tick, anchor 1's set gains the
new measurement 10. -/
theorem c1_witness :
    ∃ ds', registerEdge deps0 ⟨1, 2⟩ 10 1 = some ds' ∧ 10 ∈ ds' :=
  c1_theorem pos1 deps0 [(10, ⟨1, 2⟩, 20)]
    (registerEdge deps0 ⟨1, 2⟩ 10, [(20, measTransform ⟨0, 0, 0⟩ ⟨1, 0, 0⟩)])
    (by simp [add_measurement_visuals, pos1]) 10 ⟨1, 2⟩ 20 (by simp)
    1 (by simp [Edge.array]) [] (by simp [deps0])

lemma updateFn_isSome {α : Type} (f : Nat → Option α) (k s : Nat) (v : α)
    (h : (f s).isSome) : ((updateFn f k v) s).isSome := by
  unfold updateFn
  split
  · rfl
  · exact h

/-- Positions for the C3 statements: only anchor 10 resolves. -/
noncomputable def pos3 : Nat → Option Vec3 := fun n =>
  if n = 10 then some ⟨0, 0, 0⟩ else none

/-- Transforms for the C3 statements: segments 2 and 4 hold transforms. -/
noncomputable def tfs3 : Nat → Option Transform := fun n =>
  if n = 2 ∨ n = 4 then some tf0 else none

/-- Claim C3 amended: a failed endpoint resolution for one dependent panics
(the `.unwrap()`), aborting the whole tick — whenever some measurement of the
changed-edge query has a present segment transform but an unresolvable edge,
`update_changed_measurement` dies, updating nobody. Failures are escalated,
not isolated per entity. -/
theorem c3_theorem :
    ∀ (pos : Nat → Option Vec3) (tfs : Nat → Option Transform)
      (changed : List (Nat × Edge × Nat)) (e : Nat) (edge : Edge) (seg : Nat),
    (e, edge, seg) ∈ changed → (tfs seg).isSome →
    update_measurement_visual pos edge = none →
    update_changed_measurement pos tfs changed = none := by
  intro pos tfs changed
  induction changed generalizing tfs with
  | nil =>
    intro e edge seg hmem
    cases hmem
  | cons hd rest ih =>
    obtain ⟨e0, edge0, seg0⟩ := hd
    intro e edge seg hmem hsome hfail
    rcases List.mem_cons.mp hmem with hh | hh
    · obtain ⟨he, he2⟩ := Prod.mk.injEq .. ▸ hh
      obtain ⟨hedge, hseg⟩ := Prod.mk.injEq .. ▸ he2
      subst hedge
      subst hseg
      obtain ⟨tv, htv⟩ := Option.isSome_iff_exists.mp hsome
      simp only [update_changed_measurement, htv, hfail]
    · cases htf0 : tfs seg0 with
      | none =>
        simp only [update_changed_measurement, htf0]
        exact ih tfs e edge seg hh hsome hfail
      | some tv0 =>
        cases humv : update_measurement_visual pos edge0 with
        | none => simp only [update_changed_measurement, htf0, humv]
        | some tfn =>
          simp only [update_changed_measurement, htf0, humv]
          exact ih (updateFn tfs seg0 tfn) e edge seg hh
            (updateFn_isSome tfs seg0 seg tfn hsome) hfail

/-- Claim C3 fails as stated: with measurement 1's edge unresolvable (anchor
11 does not exist) and measurement 3 perfectly healthy, the tick processing
both dies (`none`), although processing measurement 3 alone succeeds —
failures are not isolated per entity. -/
theorem c3_counterexample :
    update_changed_measurement pos3 tfs3 [(1, ⟨10, 11⟩, 2), (3, ⟨10, 10⟩, 4)] = none ∧
    (update_changed_measurement pos3 tfs3 [(3, ⟨10, 10⟩, 4)]).isSome := by
  constructor <;>
    simp [update_changed_measurement, update_measurement_visual, pos3, tfs3, updateFn]

/-- Witness for C3: the amended theorem applied to the concrete failing tick. -/
theorem c3_witness :
    update_changed_measurement pos3 tfs3 [(1, ⟨10, 11⟩, 2), (3, ⟨10, 10⟩, 4)] = none :=
  c3_theorem pos3 tfs3 [(1, ⟨10, 11⟩, 2), (3, ⟨10, 10⟩, 4)] 1 ⟨10, 11⟩ 2 (by simp)
    (by simp [tfs3]) (by simp [update_measurement_visual, pos3])

lemma processDeps_mono (pos : Nat → Option Vec3) (ms : Nat → Option (Edge × Nat)) :
    ∀ (ds : List Nat) (tfs : Nat → Option Transform) r,
    processDeps pos ms tfs ds = some r →
    ∀ s, (tfs s).isSome → (r.1 s).isSome := by
  intro ds
  induction ds with
  | nil =>
    intro tfs r h s hs
    simp only [processDeps] at h
    cases h
    exact hs
  | cons d rest ih =>
    intro tfs r h s hs
    simp only [processDeps] at h
    cases hmd : ms d <;> simp only [hmd] at h
    · exact ih tfs r h s hs
    case some es =>
      obtain ⟨edge, seg⟩ := es
      cases hts : tfs seg <;> simp only [hts] at h
      · exact ih tfs r h s hs
      cases humv : update_measurement_visual pos edge <;> simp only [humv] at h
      · exact Option.noConfusion h
      case some tfn =>
        obtain ⟨r0, hr0, hf⟩ := Option.map_eq_some'.mp h
        rw [← hf]
        exact ih (updateFn tfs seg tfn) r0 hr0 s (updateFn_isSome tfs seg s tfn hs)

lemma processDeps_count (pos : Nat → Option Vec3) (ms : Nat → Option (Edge × Nat)) :
    ∀ (ds : List Nat) (tfs : Nat → Option Transform) r (d : Nat) (edge : Edge) (seg : Nat),
    processDeps pos ms tfs ds = some r →
    ms d = some (edge, seg) → (tfs seg).isSome → ds.Nodup →
    r.2.count d = (if d ∈ ds then 1 else 0) := by
  intro ds
  induction ds with
  | nil =>
    intro tfs r d edge seg h _ _ _
    simp only [processDeps] at h
    cases h
    simp
  | cons x rest ih =>
    intro tfs r d edge seg h hmd hts hnd
    simp only [processDeps] at h
    by_cases hdx : d = x
    · rw [← hdx] at h ⊢
      simp only [hmd] at h
      obtain ⟨tv, htv⟩ := Option.isSome_iff_exists.mp hts
      simp only [htv] at h
      cases humv : update_measurement_visual pos edge <;> simp only [humv] at h
      · exact Option.noConfusion h
      rename_i tfn
      obtain ⟨r0, hr0, hf⟩ := Option.map_eq_some'.mp h
      have hnotin : d ∉ rest := by
        rw [hdx]
        exact (List.nodup_cons.mp hnd).1
      have hc0 : r0.2.count d = 0 := by
        have := ih (updateFn tfs seg tfn) r0 d edge seg hr0 hmd
          (updateFn_isSome tfs seg seg tfn hts) (List.nodup_cons.mp hnd).2
        simpa [hnotin] using this
      rw [← hf]
      simp [hc0]
    · cases hmx : ms x <;> simp only [hmx] at h
      · rw [ih tfs r d edge seg h hmd hts (List.nodup_cons.mp hnd).2]
        simp [hdx]
      rename_i es
      obtain ⟨ex, sx⟩ := es
      cases htsx : tfs sx <;> simp only [htsx] at h
      · rw [ih tfs r d edge seg h hmd hts (List.nodup_cons.mp hnd).2]
        simp [hdx]
      cases humv : update_measurement_visual pos ex <;> simp only [humv] at h
      · exact Option.noConfusion h
      rename_i tfn
      obtain ⟨r0, hr0, hf⟩ := Option.map_eq_some'.mp h
      have := ih (updateFn tfs sx tfn) r0 d edge seg hr0 hmd
        (updateFn_isSome tfs sx seg tfn hts) (List.nodup_cons.mp hnd).2
      rw [← hf]
      simp only [List.count_cons]
      rw [this]
      simp [hdx, Ne.symm hdx]

/-- Claim C2 amended: in one `update_measurement_for_moved_anchors` tick a
measurement's geometry is recomputed once per changed anchor whose
`Dependents` set lists it — not exactly once: a measurement reachable through
two changed anchors is recomputed twice. (Each recomputation is the same pure
function of the current anchor positions, so the repeats are idempotent.) -/
theorem c2_theorem :
    ∀ (pos : Nat → Option Vec3) (ms : Nat → Option (Edge × Nat))
      (tfs : Nat → Option Transform) (changed : List (List Nat)) r
      (d : Nat) (edge : Edge) (seg : Nat),
    update_measurement_for_moved_anchors pos ms tfs changed = some r →
    ms d = some (edge, seg) → (tfs seg).isSome →
    (∀ ds ∈ changed, List.Nodup ds) →
    r.2.count d = changed.countP (fun ds => decide (d ∈ ds)) := by
  intro pos ms tfs changed
  induction changed generalizing tfs with
  | nil =>
    intro r d edge seg h _ _ _
    simp only [update_measurement_for_moved_anchors] at h
    cases h
    simp
  | cons ds rest ih =>
    intro r d edge seg h hmd hts hnd
    simp only [update_measurement_for_moved_anchors] at h
    cases hpd : processDeps pos ms tfs ds <;> simp only [hpd] at h
    · exact Option.noConfusion h
    case some r1 =>
      obtain ⟨r2, hr2, hf⟩ := Option.map_eq_some'.mp h
      have hc1 : r1.2.count d = (if d ∈ ds then 1 else 0) :=
        processDeps_count pos ms ds tfs r1 d edge seg hpd hmd hts
          (hnd ds (List.mem_cons_self ds rest))
      have hc2 : r2.2.count d = rest.countP (fun l => decide (d ∈ l)) :=
        ih r1.1 r2 d edge seg hr2 hmd
          (processDeps_mono pos ms ds tfs r1 hpd seg hts)
          (fun l hl => hnd l (List.mem_cons_of_mem ds hl))
      rw [← hf]
      simp only [List.count_append, List.countP_cons]
      rw [hc1, hc2]
      by_cases hin : d ∈ ds
      · simp [hin]
        omega
      · simp [hin]

/-- Anchors-to-measurement index for the C2 statements: entity 10 is a
measurement on edge `(1, 2)` with segment 20. -/
noncomputable def ms2 : Nat → Option (Edge × Nat) := fun n =>
  if n = 10 then some (⟨1, 2⟩, 20) else none

/-- Transforms for the C2 statements: segment 20 holds a transform. -/
noncomputable def tfs2 : Nat → Option Transform := fun n =>
  if n = 20 then some tf0 else none

/-- Claim C2 fails as stated: when both endpoint anchors of measurement 10
changed in the same tick (each listing 10 in its `Dependents`), the tick's
recomputation log is `[10, 10]` — the measurement's geometry is recomputed
twice, not exactly once. -/
theorem c2_counterexample :
    (update_measurement_for_moved_anchors pos1 ms2 tfs2 [[10], [10]]).map Prod.snd =
      some [10, 10] := by
  simp [update_measurement_for_moved_anchors, processDeps, ms2, tfs2, pos1,
    update_measurement_visual, updateFn]

/-- Witness for C2: the count formula evaluated on the concrete two-anchor
tick. -/
theorem c2_witness :
    ∃ r, update_measurement_for_moved_anchors pos1 ms2 tfs2 [[10], [10]] = some r ∧
      r.2.count 10 = [[10], [10]].countP (fun ds => decide (10 ∈ ds)) := by
  obtain ⟨r, hr⟩ := Option.isSome_iff_exists.mp
    (show (update_measurement_for_moved_anchors pos1 ms2 tfs2 [[10], [10]]).isSome by
      simp [update_measurement_for_moved_anchors, processDeps, ms2, tfs2, pos1,
        update_measurement_visual, updateFn])
  exact ⟨r, hr, c2_theorem pos1 ms2 tfs2 [[10], [10]] r 10 ⟨1, 2⟩ 20 hr
    (by simp [ms2]) (by simp [tfs2]) (by simp)⟩

/-- Claim C7 (code divergence): the measurement layer is the hardcoded constant
`DRAWING_LAYER_START + 0.001`, which a drawing of rank proportion 1 reaches
exactly (the drawing band's top is `FLOOR_LAYER_START`, modelled `0.001` above
the drawings' start), and which is where the floors' band begins — so the z
values of different categories coincide rather than staying in disjoint
bands. -/
theorem c7_theorem :
    MEASUREMENT_LAYER_START = DRAWING_LAYER_START + 1/1000 ∧
    drawing_layer_height (some ⟨1⟩) = FLOOR_LAYER_START ∧
    MEASUREMENT_LAYER_START = FLOOR_LAYER_START ∧
    floor_layer_height (1/1000) (some ⟨0⟩) = MEASUREMENT_LAYER_START ∧
    drawing_layer_height (some ⟨1⟩) = MEASUREMENT_LAYER_START ∧
    (measTransform ⟨0, 0, 0⟩ ⟨1, 1, 0⟩).translation.z = ((MEASUREMENT_LAYER_START : ℚ) : ℝ) := by
  refine ⟨?_, ?_, ?_, ?_, ?_, rfl⟩ <;>
    norm_num [MEASUREMENT_LAYER_START, DRAWING_LAYER_START, FLOOR_LAYER_START,
      drawing_layer_height, floor_layer_height]

end RmfSite
